import Mathlib

/-!
Verification of the commit-to-pixel pipeline of the github-awtrix repository.

The definitions below are shallow embeddings of the TypeScript functions in
src/index.ts (the 64-day commit-chart variant) and src/unnamed/part_000 (the
year-progress-bar variant).  JavaScript `number` values that the program only
ever uses at integral points are modelled as `Int`/`Nat`; the HSL computation,
which JavaScript performs on doubles, is modelled over `ℚ` (at the inputs the
theorems use, every intermediate double is exact, so the rational model agrees
with the float semantics).  Effectful code (the `Effect.iterate` pagination
loop) is modelled as a fuel-indexed state machine: `none` means the loop was
still running when the fuel ran out, `some` is the value a terminating run
produces.
-/

/-- Milliseconds in one day: the divisor `1000 * 60 * 60 * 24` used in
`fetchCommitActivity` (src/index.ts line 144). -/
def msPerDay : Int := 1000 * 60 * 60 * 24

/-- Model of `Math.floor((today.getTime() - commitDate.getTime()) / (1000*60*60*24))`
(src/index.ts line 144): instants are integer epoch-milliseconds and
`Math.floor` of the real quotient is flooring integer division `Int.fdiv`. -/
def daysDiff (now ts : Int) : Int := Int.fdiv (now - ts) msPerDay

/-- Model of `commitsByDay[idx]++`: bump the entry at index `idx`, leaving the
rest of the array alone (the source only ever uses an in-range `idx`). -/
def incrAt : List Nat → Nat → List Nat
  | [], _ => []
  | x :: xs, 0 => (x + 1) :: xs
  | x :: xs, i + 1 => x :: incrAt xs i

/-- The guard `daysDiff >= 0 && daysDiff < config.commitChartDays`
(src/index.ts line 145). -/
def inWindow (n : Nat) (now ts : Int) : Bool :=
  decide (0 ≤ daysDiff now ts) && decide (daysDiff now ts < (n : Int))

/-- One iteration of the `for (const commit of allItems.items)` loop
(src/index.ts lines 142-148): if the commit is inside the window, increment
bucket `N - 1 - daysDiff`, otherwise leave the buckets unchanged. -/
def bucketStep (n : Nat) (now : Int) (acc : List Nat) (ts : Int) : List Nat :=
  if inWindow n now ts then incrAt acc (n - 1 - (daysDiff now ts).toNat) else acc

/-- The grouping stage of `fetchCommitActivity` (src/index.ts lines 140-153):
start from `new Array(N).fill(0)`, run the bucket loop over every fetched
timestamp, and return the bucket array together with
`total = allItems.items.length`. -/
def aggregate (timestamps : List Int) (now : Int) (n : Nat) : List Nat × Nat :=
  (timestamps.foldl (bucketStep n now) (List.replicate n 0), timestamps.length)

/-- Loop guard of the `Effect.iterate` pagination
(src/index.ts line 126): `items.length < 1000 && (page === 1 || items.length % perPage === 0)`
with `perPage = 100`. -/
def loopCond (items : List α) (page : Nat) : Bool :=
  decide (items.length < 1000) && (page == 1 || items.length % 100 == 0)

/-- Fuel-indexed model of the `Effect.iterate` pagination loop
(src/index.ts lines 123-137).  The state is the accumulated `items` and the
next `page`; `log` records the page numbers actually passed to `fetchPage`
(mirroring the per-page `Console.log`).  `none` means the guard was still true
when the fuel ran out, i.e. the loop had not yet terminated. -/
def fetchLoop (f : Nat → List α) : Nat → List α → Nat → List Nat → Option (List α × List Nat)
  | 0, items, page, log => if loopCond items page then none else some (items, log)
  | fuel + 1, items, page, log =>
    if loopCond items page then fetchLoop f fuel (items ++ f page) (page + 1) (log ++ [page])
    else some (items, log)

/-- Fallible variant of the pagination loop: `fetchPage` (src/index.ts lines
106-120) can fail with a transport or decoding error, modelled as
`Except ε (List α)`.  A failing fetch makes the whole loop produce that error
(the `Effect` semantics of a failing `body`); no further page is consulted. -/
def fetchLoopE (f : Nat → Except ε (List α)) : Nat → List α → Nat → Option (Except ε (List α))
  | 0, items, page => if loopCond items page then none else some (Except.ok items)
  | fuel + 1, items, page =>
    if loopCond items page then
      match f page with
      | Except.error e => some (Except.error e)
      | Except.ok newItems => fetchLoopE f fuel (items ++ newItems) (page + 1)
    else some (Except.ok items)

/-- A page fetcher every page of which is empty (e.g. the search matches no
commits at all): each `fetchPage` call returns `items: []`. -/
def emptyPages (_ : Nat) : List Nat := []

/-- A page fetcher delivering pages of sizes 100, 100 and 37 for pages 1, 2, 3.
Later pages are deliberately full (size 100), so that if the loop ever
requested page 4 it would keep going and produce a different result. -/
def pages4 (p : Nat) : List Nat :=
  if p = 1 then List.range 100
  else if p = 2 then List.range 100
  else if p = 3 then List.range 37
  else List.range 100

/-- A page fetcher whose every fetch fails with error code 7. -/
def alwaysError (_ : Nat) : Except Nat (List Nat) := Except.error 7

/-- A page fetcher every page of which holds exactly one item. -/
def onePage (_ : Nat) : List Nat := [0]

/-- Rounding of `Math.round(x)` for non-negative arguments: round half away
from zero, i.e. the floor of `x + 1/2` (src/index.ts line 198 only ever rounds
values in `[0, 255]`). -/
def jsRound (q : ℚ) : Int := ⌊q + 1 / 2⌋

/-- The JavaScript `%` operator at the uses in `hslToHex` (src/index.ts line
196): both operands are non-negative there, where `x % y = x - y * floor(x/y)`. -/
def jsMod (x y : ℚ) : ℚ := x - y * ⌊x / y⌋

/-- One colour channel of `hslToHex` (src/index.ts lines 192-200): the inner
`f(n)` with `l /= 100`, `a = s * Math.min(l, 1 - l) / 100`,
`k = (n + h / 30) % 12`, `color = l - a * Math.max(Math.min(k - 3, 9 - k, 1), -1)`,
`Math.round(255 * color)`.  The model returns the rounded channel byte; the
source additionally prints it as two lowercase hex digits. -/
def hslChannel (h s l n : ℚ) : Int :=
  let l1 := l / 100
  let a := s * min l1 (1 - l1) / 100
  let k := jsMod (n + h / 30) 12
  jsRound (255 * (l1 - a * max (min (min (k - 3) (9 - k)) 1) (-1)))

/-- `hslToHex(h, s, l)` (src/index.ts lines 192-200) as the packed RGB triple
`(f(0), f(8), f(4))`; the source renders this triple as the string
`#rrggbb`. -/
def hslToRgb (h s l : ℚ) : Int × Int × Int :=
  (hslChannel h s l 0, hslChannel h s l 8, hslChannel h s l 4)

/-- `Math.max(...commitData.days, 1)` (src/index.ts line 183): the maximum of
the day series and the constant 1. -/
def maxCommits (days : List Nat) : Nat := days.foldr max 1

/-- `const intensity = Math.min(commits / Math.max(maxCommits, 1), 1)`
(src/index.ts line 207), over exact rationals. -/
def intensityFor (maxC commits : Nat) : ℚ :=
  min ((commits : ℚ) / max (maxC : ℚ) 1) 1

/-- `getColorForCommits` (src/index.ts lines 204-213): a fixed very dark green
for zero commits, otherwise hue 120, saturation 100 and lightness
`15 + intensity * 65`. -/
def getColorForCommits (maxC commits : Nat) : Int × Int × Int :=
  if commits = 0 then hslToRgb 120 50 8
  else hslToRgb 120 100 (15 + intensityFor maxC commits * 65)

/-- `squareSize` (src/index.ts line 187). -/
def squareSize : Nat := 2

/-- `daysAcross` (src/index.ts line 188). -/
def daysAcross : Nat := 16

/-- `daysDown` (src/index.ts line 189). -/
def daysDown : Nat := 4

/-- One `df` draw command `[x, y, w, h, color]` of the commit chart. -/
structure DrawRect where
  x : Nat
  y : Nat
  w : Nat
  h : Nat
  color : Int × Int × Int
deriving DecidableEq

/-- The draw-command loop of `pushCommitChartToUlanzi` (src/index.ts lines
215-229): for `i < min(days.length, daysAcross * daysDown)`, column
`floor(i / daysDown)`, row `i % daysDown`, origin `(col * 2, row * 2)`, a
2 by 2 filled rectangle coloured by `getColorForCommits(days[i])`. -/
def drawCommands (days : List Nat) : List DrawRect :=
  (List.range (min days.length (daysAcross * daysDown))).map (fun i =>
    { x := i / daysDown * squareSize
      y := i % daysDown * squareSize
      w := squareSize
      h := squareSize
      color := getColorForCommits (maxCommits days) (days.getD i 0) })

/-- Cells do not overlap: they are separated along the x axis or the y axis. -/
def rectDisjoint (a b : DrawRect) : Bool :=
  decide (a.x + a.w ≤ b.x) || decide (b.x + b.w ≤ a.x) ||
  decide (a.y + a.h ≤ b.y) || decide (b.y + b.h ≤ a.y)

/-- `displayWidth` of the progress-bar variant (src/unnamed/part_000 line 84). -/
def displayWidth : Nat := 32

/-- `iconWidth` (src/unnamed/part_000 line 85). -/
def iconWidth : Nat := 8

/-- `progressBarWidth = displayWidth - iconWidth` (src/unnamed/part_000 line 86). -/
def progressBarWidth : Nat := displayWidth - iconWidth

/-- One `dl` line draw command `[x1, y1, x2, y2, color]`. -/
structure DrawLine where
  x1 : Nat
  y1 : Nat
  x2 : Nat
  y2 : Nat
  color : String
deriving DecidableEq

/-- The progress-bar draw list of `pushToUlanzi` (src/unnamed/part_000 lines
89-103) as a function of `progressPixels = Math.floor(yearProgress * progressBarWidth)`:
push the dark background line when `progressPixels < progressBarWidth`, then
the green progress line when `progressPixels > 0`. -/
def progressDraw (progressPixels : Nat) : List DrawLine :=
  (if progressPixels < progressBarWidth then
      [⟨iconWidth + progressPixels, 7, displayWidth - 1, 7, "#333333"⟩]
   else [])
  ++ (if progressPixels > 0 then
      [⟨iconWidth, 7, iconWidth + progressPixels - 1, 7, "#40C463"⟩]
   else [])

/-- The inclusive pixel span `x1 .. x2` painted by a horizontal `dl` line. -/
def lineSpan (l : DrawLine) : List Nat := List.range' l.x1 (l.x2 + 1 - l.x1)

theorem incrAt_length (l : List Nat) (i : Nat) : (incrAt l i).length = l.length := by
  induction l generalizing i with
  | nil => rfl
  | cons x xs ih =>
    cases i with
    | zero => rfl
    | succ j => simp [incrAt, ih]

theorem incrAt_getD (l : List Nat) (i j : Nat) :
    (incrAt l i).getD j 0 =
      if i = j ∧ i < l.length then l.getD j 0 + 1 else l.getD j 0 := by
  induction l generalizing i j with
  | nil => simp [incrAt]
  | cons x xs ih =>
    cases i with
    | zero =>
      cases j with
      | zero => simp [incrAt]
      | succ j2 => simp [incrAt]
    | succ i2 =>
      cases j with
      | zero => simp [incrAt]
      | succ j2 =>
        have := ih i2 j2
        simp only [incrAt, List.getD_cons_succ, List.length_cons]
        rw [this]
        by_cases hij : i2 = j2 ∧ i2 < xs.length
        · rw [if_pos hij, if_pos ⟨by omega, by omega⟩]
        · rw [if_neg hij, if_neg (by omega)]

theorem incrAt_sum (l : List Nat) (i : Nat) (h : i < l.length) :
    (incrAt l i).sum = l.sum + 1 := by
  induction l generalizing i with
  | nil => simp at h
  | cons x xs ih =>
    cases i with
    | zero => simp [incrAt]; omega
    | succ i2 =>
      have := ih i2 (by simpa using h)
      simp [incrAt, this]; omega

theorem bucketStep_length (n : Nat) (now : Int) (acc : List Nat) (t : Int) :
    (bucketStep n now acc t).length = acc.length := by
  unfold bucketStep
  split
  · exact incrAt_length acc _
  · rfl

theorem inWindow_iff (n : Nat) (now t : Int) :
    inWindow n now t = true ↔ (0 ≤ daysDiff now t ∧ daysDiff now t < (n : Int)) := by
  simp [inWindow]

theorem bucketStep_getD (n : Nat) (now : Int) (acc : List Nat) (t : Int) (j : Nat)
    (hlen : acc.length = n) (hj : j < n) :
    (bucketStep n now acc t).getD j 0
      = acc.getD j 0 + (if daysDiff now t = (n : Int) - 1 - (j : Int) then 1 else 0) := by
  unfold bucketStep
  by_cases hw : inWindow n now t = true
  · rw [if_pos hw, incrAt_getD]
    obtain ⟨h0, h1⟩ := (inWindow_iff n now t).mp hw
    have hiff : (n - 1 - (daysDiff now t).toNat = j ∧ n - 1 - (daysDiff now t).toNat < acc.length)
        ↔ daysDiff now t = (n : Int) - 1 - (j : Int) := by
      rw [hlen]; omega
    by_cases hd : daysDiff now t = (n : Int) - 1 - (j : Int)
    · rw [if_pos (hiff.mpr hd), if_pos hd]
    · rw [if_neg (fun hc => hd (hiff.mp hc)), if_neg hd]; omega
  · rw [if_neg hw]
    have hnw : ¬ (0 ≤ daysDiff now t ∧ daysDiff now t < (n : Int)) :=
      fun hc => hw ((inWindow_iff n now t).mpr hc)
    have hd : ¬ daysDiff now t = (n : Int) - 1 - (j : Int) := by omega
    rw [if_neg hd]; omega

theorem bucketStep_sum (n : Nat) (now : Int) (acc : List Nat) (t : Int)
    (hlen : acc.length = n) :
    (bucketStep n now acc t).sum = acc.sum + (if inWindow n now t then 1 else 0) := by
  unfold bucketStep
  by_cases hw : inWindow n now t = true
  · obtain ⟨h0, h1⟩ := (inWindow_iff n now t).mp hw
    have hidx : n - 1 - (daysDiff now t).toNat < acc.length := by rw [hlen]; omega
    rw [if_pos hw, if_pos hw, incrAt_sum acc _ hidx]
  · rw [if_neg hw, if_neg hw]; omega

theorem foldl_bucketStep_length (n : Nat) (now : Int) (ts : List Int) :
    ∀ acc : List Nat, (ts.foldl (bucketStep n now) acc).length = acc.length := by
  induction ts with
  | nil => intro acc; rfl
  | cons t rest ih =>
    intro acc
    rw [List.foldl_cons, ih, bucketStep_length]

theorem foldl_bucketStep_getD (n : Nat) (now : Int) (ts : List Int) (j : Nat) (hj : j < n) :
    ∀ acc : List Nat, acc.length = n →
      (ts.foldl (bucketStep n now) acc).getD j 0
        = acc.getD j 0 + ts.countP (fun t => decide (daysDiff now t = (n : Int) - 1 - (j : Int))) := by
  induction ts with
  | nil => intro acc _; simp
  | cons t rest ih =>
    intro acc hlen
    rw [List.foldl_cons, ih _ (by rw [bucketStep_length]; exact hlen),
      bucketStep_getD n now acc t j hlen hj, List.countP_cons]
    simp only [decide_eq_true_eq]
    by_cases hd : daysDiff now t = (n : Int) - 1 - (j : Int)
    · rw [if_pos hd]; omega
    · rw [if_neg hd]; omega

theorem foldl_bucketStep_sum (n : Nat) (now : Int) (ts : List Int) :
    ∀ acc : List Nat, acc.length = n →
      (ts.foldl (bucketStep n now) acc).sum
        = acc.sum + ts.countP (inWindow n now) := by
  induction ts with
  | nil => intro acc _; simp
  | cons t rest ih =>
    intro acc hlen
    rw [List.foldl_cons, ih _ (by rw [bucketStep_length]; exact hlen),
      bucketStep_sum n now acc t hlen, List.countP_cons]
    by_cases hw : inWindow n now t = true
    · rw [if_pos hw]; omega
    · rw [if_neg hw]; omega

theorem replicate_getD (n j : Nat) : (List.replicate n (0 : Nat)).getD j 0 = 0 := by
  induction n generalizing j with
  | zero => simp
  | succ k ih =>
    cases j with
    | zero => simp [List.replicate]
    | succ j2 => simp only [List.replicate, List.getD_cons_succ]; exact ih j2

theorem getElem_eq_getD (l : List Nat) (i : Nat) (h : i < l.length) :
    l[i] = l.getD i 0 := by
  simp [List.getD_eq_getElem?_getD, List.getElem?_eq_getElem h]

/-- C1: for every timestamp list, reference instant and positive window size N,
the aggregator returns `total` = the number of all input items, a bucket series
of length N whose bucket `j` counts exactly the timestamps with
`daysDiff = N - 1 - j`, and whose sum counts exactly the in-window timestamps;
hence `sum(series) <= total`, with equality exactly when every input timestamp
has `daysDiff` in `[0, N)`. -/
theorem aggregate_spec (ts : List Int) (now : Int) (n : Nat) (hn : 0 < n) :
    (aggregate ts now n).2 = ts.length ∧
    ((aggregate ts now n).1).length = n ∧
    (∀ j : Fin n, ((aggregate ts now n).1).getD j 0
        = ts.countP (fun t => decide (daysDiff now t = (n : Int) - 1 - (j : Int)))) ∧
    ((aggregate ts now n).1).sum = ts.countP (inWindow n now) ∧
    ((aggregate ts now n).1).sum ≤ (aggregate ts now n).2 ∧
    (((aggregate ts now n).1).sum = (aggregate ts now n).2 ↔
      ∀ t ∈ ts, inWindow n now t = true) := by
  have hlen : (List.replicate n (0 : Nat)).length = n := List.length_replicate n 0
  have hsum : ((aggregate ts now n).1).sum = ts.countP (inWindow n now) := by
    have := foldl_bucketStep_sum n now ts (List.replicate n 0) hlen
    simpa [aggregate] using this
  refine ⟨rfl, ?_, ?_, hsum, ?_, ?_⟩
  · show (ts.foldl (bucketStep n now) (List.replicate n 0)).length = n
    rw [foldl_bucketStep_length, hlen]
  · intro j
    have := foldl_bucketStep_getD n now ts j j.isLt (List.replicate n 0) hlen
    simpa [aggregate, replicate_getD] using this
  · rw [hsum]
    exact List.countP_le_length _
  · rw [hsum]
    show ts.countP (inWindow n now) = ts.length ↔ _
    exact List.countP_eq_length

/-- Witness for C1 at the concrete input `ts = [5]`, `now = 0`, `n = 2`. -/
theorem aggregate_spec_witness :
    0 < 2 ∧
    ((aggregate [5] 0 2).2 = List.length [5] ∧
     ((aggregate [5] 0 2).1).length = 2 ∧
     (∀ j : Fin 2, ((aggregate [5] 0 2).1).getD j 0
         = List.countP (fun t => decide (daysDiff 0 t = (2 : Int) - 1 - (j : Int))) [5]) ∧
     ((aggregate [5] 0 2).1).sum = List.countP (inWindow 2 0) [5] ∧
     ((aggregate [5] 0 2).1).sum ≤ (aggregate [5] 0 2).2 ∧
     (((aggregate [5] 0 2).1).sum = (aggregate [5] 0 2).2 ↔
       ∀ t ∈ [(5 : Int)], inWindow 2 0 t = true)) :=
  ⟨by decide, aggregate_spec [5] 0 2 (by decide)⟩

/-- C2 counterexample: at `now = 0` and timestamps lying at days-ago
`[0, 0, 1, 3, 6, 9]`, the aggregator with window 7 does not return the series
`[0, 0, 0, 1, 0, 1, 2]` the claim states: the commit 6 days ago lands in
bucket 0, so bucket 0 holds 1, not 0. -/
theorem aggregate_days_ago_example_counterexample :
    aggregate [0 - 0 * msPerDay, 0 - 0 * msPerDay, 0 - 1 * msPerDay, 0 - 3 * msPerDay,
      0 - 6 * msPerDay, 0 - 9 * msPerDay] 0 7 ≠ ([0, 0, 0, 1, 0, 1, 2], 6) := by
  decide

theorem daysDiff_sub_mul (now k : Int) : daysDiff now (now - k * msPerDay) = k := by
  unfold daysDiff
  rw [sub_sub_cancel]
  exact Int.mul_fdiv_cancel k (by norm_num [msPerDay])

/-- C2 (amended): for window size 7 and timestamps at days-ago
`[0, 0, 1, 3, 6, 9]` relative to `now`, the aggregator drops the timestamp 9
days ago and returns the series `[1, 0, 0, 1, 0, 1, 2]` (index 6 = today with
2 commits, index 0 = 6 days ago with 1 commit) and `total = 6` including the
dropped item. -/
theorem aggregate_days_ago_example (now : Int) :
    aggregate [now - 0 * msPerDay, now - 0 * msPerDay, now - 1 * msPerDay, now - 3 * msPerDay,
      now - 6 * msPerDay, now - 9 * msPerDay] now 7 = ([1, 0, 0, 1, 0, 1, 2], 6) := by
  have h0 : daysDiff now now = 0 := by simpa using daysDiff_sub_mul now 0
  have h1 : daysDiff now (now - msPerDay) = 1 := by simpa using daysDiff_sub_mul now 1
  simp [aggregate, bucketStep, inWindow, daysDiff_sub_mul, h0, h1, incrAt, List.foldl]

/-- C9: the aggregator is invariant under input reordering: permuting the
timestamp list changes neither the bucket series nor the total. -/
theorem aggregate_perm_invariant (ts1 ts2 : List Int) (now : Int) (n : Nat)
    (hp : ts1.Perm ts2) :
    aggregate ts1 now n = aggregate ts2 now n := by
  have hlen : (List.replicate n (0 : Nat)).length = n := List.length_replicate n 0
  unfold aggregate
  refine Prod.ext ?_ hp.length_eq
  apply List.ext_getElem
  · rw [foldl_bucketStep_length, foldl_bucketStep_length]
  · intro i h1 h2
    have hi : i < n := by
      rw [foldl_bucketStep_length, hlen] at h1
      exact h1
    rw [getElem_eq_getD _ _ h1, getElem_eq_getD _ _ h2,
      foldl_bucketStep_getD n now ts1 i hi (List.replicate n 0) hlen,
      foldl_bucketStep_getD n now ts2 i hi (List.replicate n 0) hlen,
      hp.countP_eq]

/-- Witness for C9 at the concrete permutation `[1, 2] ~ [2, 1]`. -/
theorem aggregate_perm_invariant_witness :
    ([1, 2] : List Int).Perm [2, 1] ∧ aggregate [1, 2] 0 3 = aggregate [2, 1] 0 3 :=
  ⟨by decide, aggregate_perm_invariant [1, 2] [2, 1] 0 3 (by decide)⟩

theorem fetchLoop_emptyPages_none :
    ∀ (fuel page : Nat) (log : List Nat),
      fetchLoop emptyPages fuel [] page log = none := by
  intro fuel
  induction fuel with
  | zero =>
    intro page log
    simp [fetchLoop, loopCond]
  | succ k ih =>
    intro page log
    simp [fetchLoop, loopCond, emptyPages, ih]

/-- C3 counterexample: the pagination loop does not terminate for every page
fetcher.  With the fetcher whose every page is empty, the accumulated count
stays 0, which is a multiple of 100, so the guard
`items.length < 1000 && (page === 1 || items.length % 100 === 0)` stays true
and no amount of fuel makes the loop finish: the claimed stop on a page with
exactly 0 new items does not exist in the code. -/
theorem fetchLoop_emptyPages_no_terminating_run :
    ¬ ∃ fuel r log, fetchLoop emptyPages fuel [] 1 [] = some (r, log) := by
  rintro ⟨fuel, r, log, h⟩
  rw [fetchLoop_emptyPages_none] at h
  exact Option.noConfusion h

theorem fetchLoop_some_of_large (f : Nat → List α) (hne : ∀ p, f p ≠ []) :
    ∀ (fuel : Nat) (acc : List α) (page : Nat) (log : List Nat),
      1000 ≤ acc.length + fuel →
      ∃ r tr, fetchLoop f fuel acc page log = some (r, tr) ∧
        (1000 ≤ r.length ∨ r.length % 100 ≠ 0) := by
  intro fuel
  induction fuel with
  | zero =>
    intro acc page log hcap
    have hc : loopCond acc page = false := by
      simp only [loopCond, Bool.and_eq_false_iff, decide_eq_false_iff_not]
      left; omega
    refine ⟨acc, log, ?_, Or.inl (by omega)⟩
    simp [fetchLoop, hc]
  | succ k ih =>
    intro acc page log hcap
    by_cases hc : loopCond acc page = true
    · have hlenf : 1 ≤ (f page).length := by
        cases hfp : f page with
        | nil => exact absurd hfp (hne page)
        | cons a l => simp
      obtain ⟨r, tr, heq, hcond⟩ :=
        ih (acc ++ f page) (page + 1) (log ++ [page])
          (by rw [List.length_append]; omega)
      exact ⟨r, tr, by simp [fetchLoop, hc, heq], hcond⟩
    · have hc' : loopCond acc page = false := by
        cases h : loopCond acc page
        · rfl
        · exact absurd h hc
      refine ⟨acc, log, by simp [fetchLoop, hc'], ?_⟩
      simp only [loopCond, Bool.and_eq_false_iff, Bool.or_eq_false_iff,
        decide_eq_false_iff_not, beq_eq_false_iff_ne] at hc'
      rcases hc' with h | ⟨h1, h2⟩
      · left; omega
      · right; omega

/-- C3 (amended): the pagination loop fetches the first page unconditionally
and continues only while the accumulated count is below the 1000 cap and
(page = 1 or the count is a multiple of 100).  It terminates — 1001 fuel
always suffices — whenever every fetched page is nonempty, and the run stops
with at least 1000 items or a count that is not a multiple of 100.  (It does
NOT stop on a page with 0 new items: an empty page at a continuation point
leaves the count a multiple of 100 and the loop refetches forever, see the
counterexample.) -/
theorem fetchLoop_terminates_of_nonempty_pages (f : Nat → List α) (hne : ∀ p, f p ≠ []) :
    ∃ r tr, fetchLoop f 1001 [] 1 [] = some (r, tr) ∧
      (1000 ≤ r.length ∨ r.length % 100 ≠ 0) :=
  fetchLoop_some_of_large f hne 1001 [] 1 [] (by simp)

/-- Witness for C3 (amended) at the concrete one-item-per-page fetcher. -/
theorem fetchLoop_terminates_witness :
    (∀ p, onePage p ≠ []) ∧
    ∃ r tr, fetchLoop onePage 1001 [] 1 [] = some (r, tr) ∧
      (1000 ≤ r.length ∨ r.length % 100 ≠ 0) :=
  ⟨fun _ => List.cons_ne_nil 0 [], fetchLoop_terminates_of_nonempty_pages onePage
    (fun _ => List.cons_ne_nil 0 [])⟩

set_option maxRecDepth 4000 in
/-- C4: with pages of sizes 100, 100 and 37 for pages 1, 2, 3 and full pages
afterwards, the loop returns exactly the concatenation of the three pages (237
items) and its fetch log is exactly `[1, 2, 3]`: page 4 is never requested,
because 237 is not a multiple of 100. -/
theorem fetchLoop_pages4 :
    fetchLoop pages4 1001 [] 1 [] =
      some ((List.range 100 ++ List.range 100) ++ List.range 37, [1, 2, 3]) ∧
    ((List.range 100 ++ List.range 100) ++ List.range 37).length = 237 := by
  constructor
  · decide
  · decide

/-- C5: if the fetch of some page fails with a transport or decoding error
while the loop guard holds, the loop aborts at once and propagates exactly
that error, returning no partial result; the fetcher is arbitrary at every
other page, so pages after the failing one are never consulted. -/
theorem fetchLoopE_error_aborts (f : Nat → Except ε (List α)) (acc : List α)
    (page : Nat) (e : ε) (fuel : Nat)
    (hc : loopCond acc page = true) (hf : f page = Except.error e) :
    fetchLoopE f (fuel + 1) acc page = some (Except.error e) := by
  simp [fetchLoopE, hc, hf]

/-- Witness for C5 at the concrete always-failing fetcher. -/
theorem fetchLoopE_error_aborts_witness :
    loopCond ([] : List Nat) 1 = true ∧ alwaysError 1 = Except.error 7 ∧
    fetchLoopE alwaysError (0 + 1) [] 1 = some (Except.error 7) :=
  ⟨by decide, rfl, fetchLoopE_error_aborts alwaysError [] 1 7 0 (by decide) rfl⟩

/-- C6: in fixed-grid mode (16 days across, 4 down, 2 by 2 cells), the emitted
draw commands have origins `(floor(i / 4) * 2, (i % 4) * 2)` in column-major
order for exactly the day indices `i < min(N, 64)` (so every index at or
beyond 64 is dropped), the origins are pairwise distinct, the cells are
mutually non-overlapping, and every cell lies inside the 32 by 8 canvas. -/
theorem drawCommands_layout (days : List Nat) :
    (drawCommands days).map (fun c => (c.x, c.y))
        = (List.range (min days.length 64)).map (fun i => (i / 4 * 2, i % 4 * 2)) ∧
    ((drawCommands days).map (fun c => (c.x, c.y))).Nodup ∧
    List.Pairwise (fun a b => rectDisjoint a b = true) (drawCommands days) ∧
    (drawCommands days).all
      (fun c => decide (c.x + c.w ≤ 32) && decide (c.y + c.h ≤ 8)) = true ∧
    (drawCommands days).length = min days.length 64 := by
  have hmap : (drawCommands days).map (fun c => (c.x, c.y))
      = (List.range (min days.length 64)).map (fun i => (i / 4 * 2, i % 4 * 2)) := by
    rw [drawCommands, List.map_map]
    rfl
  refine ⟨hmap, ?_, ?_, ?_, ?_⟩
  · rw [hmap]
    refine List.Nodup.map ?_ (List.nodup_range _)
    intro a b hab
    simp only [Prod.mk.injEq] at hab
    omega
  · rw [drawCommands, List.pairwise_map]
    refine (List.pairwise_lt_range _).imp ?_
    intro a b hab
    simp only [rectDisjoint, daysDown, squareSize, Bool.or_eq_true, decide_eq_true_eq]
    omega
  · rw [List.all_eq_true]
    intro c hc
    rw [drawCommands] at hc
    simp only [List.mem_map, List.mem_range] at hc
    obtain ⟨i, hi, rfl⟩ := hc
    simp only [daysAcross, daysDown] at hi
    simp only [daysDown, squareSize, Bool.and_eq_true, decide_eq_true_eq]
    omega
  · simp [drawCommands, daysAcross, daysDown]

/-- C7: in progress-bar mode (bar of width 24 starting at x = 8 on row 7), for
every `filled` in `[0, 24]`: `filled = 0` emits exactly the background line,
`filled = 24` emits exactly the progress line, and `0 < filled < 24` emits
exactly two lines whose pixel spans are adjacent, non-overlapping, and
together cover the whole bar — the progress line covers the first `filled`
pixels and the background line the remaining `24 - filled`. -/
theorem progressDraw_spec : ∀ filled : Fin 25,
    ((filled : Nat) = 0 →
      progressDraw filled = [⟨iconWidth, 7, displayWidth - 1, 7, "#333333"⟩]) ∧
    ((filled : Nat) = progressBarWidth →
      progressDraw filled = [⟨iconWidth, 7, iconWidth + (filled : Nat) - 1, 7, "#40C463"⟩]) ∧
    (0 < (filled : Nat) → (filled : Nat) < progressBarWidth →
      progressDraw filled =
        [⟨iconWidth + (filled : Nat), 7, displayWidth - 1, 7, "#333333"⟩,
         ⟨iconWidth, 7, iconWidth + (filled : Nat) - 1, 7, "#40C463"⟩] ∧
      lineSpan ⟨iconWidth, 7, iconWidth + (filled : Nat) - 1, 7, "#40C463"⟩ ++
        lineSpan ⟨iconWidth + (filled : Nat), 7, displayWidth - 1, 7, "#333333"⟩ =
        List.range' iconWidth progressBarWidth ∧
      (lineSpan ⟨iconWidth, 7, iconWidth + (filled : Nat) - 1, 7, "#40C463"⟩).all
        (fun px => !(lineSpan ⟨iconWidth + (filled : Nat), 7, displayWidth - 1, 7,
          "#333333"⟩).contains px) = true) := by
  decide

/-- C8: under the continuous hue/lightness policy, whenever `c = max > 0` the
intensity is exactly 1, so the colour is exactly the one at the upper bound of
the lightness range — `hslToHex(120, 100, 80)`, i.e. the channel triple
`(153, 255, 153)` (`#99ff99`) — the same for every such `c` and `max`. -/
theorem getColorForCommits_at_max (c m : Nat) (hcm : c = m) (hc : 0 < c) :
    intensityFor m c = 1 ∧
    getColorForCommits m c = hslToRgb 120 100 80 ∧
    hslToRgb 120 100 80 = (153, 255, 153) := by
  subst hcm
  have h1 : intensityFor c c = 1 := by
    unfold intensityFor
    rw [max_eq_left (Nat.one_le_cast.mpr hc),
      div_self (Nat.cast_ne_zero.mpr (Nat.pos_iff_ne_zero.mp hc)), min_self]
  refine ⟨h1, ?_, ?_⟩
  · unfold getColorForCommits
    rw [if_neg (by omega : ¬ c = 0), h1]
    norm_num
  · simp only [hslToRgb, hslChannel, jsMod, jsRound, min_def, max_def]
    norm_num

/-- Witness for C8 at the concrete input `c = max = 3`. -/
theorem getColorForCommits_at_max_witness :
    (3 : Nat) = 3 ∧ 0 < 3 ∧
    (intensityFor 3 3 = 1 ∧
     getColorForCommits 3 3 = hslToRgb 120 100 80 ∧
     hslToRgb 120 100 80 = (153, 255, 153)) :=
  ⟨rfl, by decide, getColorForCommits_at_max 3 3 rfl (by decide)⟩

/-- C10: the colour mapper is total on every series of day counts: the series
maximum is taken together with 1 and the divisor is guarded again by
`max(maxCommits, 1)`, so the divisor is strictly positive and the computed
intensity always lies in `[0, 1]`, for every day count — including on the
all-zero series. -/
theorem intensityFor_bounds (days : List Nat) (c : Nat) :
    1 ≤ maxCommits days ∧
    (0 : ℚ) < max (maxCommits days : ℚ) 1 ∧
    0 ≤ intensityFor (maxCommits days) c ∧
    intensityFor (maxCommits days) c ≤ 1 := by
  refine ⟨?_, ?_, ?_, ?_⟩
  · have h : ∀ l : List Nat, 1 ≤ maxCommits l := by
      intro l
      induction l with
      | nil => exact le_refl 1
      | cons d rest ih => exact le_trans ih (le_max_right d _)
    exact h days
  · exact lt_of_lt_of_le one_pos (le_max_right _ _)
  · unfold intensityFor
    exact le_min
      (div_nonneg (Nat.cast_nonneg c) (le_of_lt (lt_of_lt_of_le one_pos (le_max_right _ _))))
      zero_le_one
  · unfold intensityFor
    exact min_le_right _ _
